import Mathlib

/-!
# Verification of the NSF weighted-graph subsystem

Shallow embedding of the "Neuro-Semantic Flowmeter" memory subsystem:
the `SenseAtom` / `RelationalGraph` node store (`src/memory/structures/SenseAtom.ts`),
the decay scheduler (`DecayScheduler` in `src/dist/memory/logic/excitationEngine.js`),
and the context-excitation pass (`processContextExcitation` in the same file).

Modelling conventions:
* JS numbers are modelled as exact rationals (`ℚ`); timestamps (`Date.now()`
  milliseconds) as integers (`ℤ`), threaded explicitly as a `now` argument
  wherever the source calls `Date.now()`.
* A JS `Map` is modelled as an association list in insertion order.
  `Map.set` replaces the value of the first (in a real `Map`: only) entry
  with the key, keeping its position, and appends otherwise; `Map.delete`
  and `Set.delete` drop the entry for the key (a real `Map`/`Set` holds at
  most one entry per key, so dropping every occurrence coincides with
  deleting the single entry).
* Console logging and the `DecayScheduler`'s diagnostic counters are not
  modelled; the single counter that feeds back into control flow (the
  number of atoms removed in a decay cycle, which gates `optimize`) is.
-/

/-- The five-level amygdala activation enum of `SenseAtom.amygdalaActivationLevel`. -/
inductive AmygdalaLevel where
  | MINIMAL | LOW | MEDIUM | HIGH | EXTREME
deriving DecidableEq, Repr

/-- `ConnectionType` from `SenseAtom.ts`. -/
inductive ConnectionType where
  | SEMANTIC | TEMPORAL | CAUSAL | EMOTIONAL | ASSOCIATIVE | HIERARCHICAL
deriving DecidableEq, Repr

/-- `ConnectionStrength` from `SenseAtom.ts`: per-edge payload. -/
structure ConnectionStrength where
  strength : ℚ
  type : ConnectionType
  createdAt : ℤ
deriving DecidableEq, Repr

/-- An entry of the `NS_WEIGHTS` table (`NeuroSemanticWeight`). -/
structure NeuroSemanticWeight where
  area : String
  weight : ℚ
  decayModifier : ℚ
  description : String
deriving DecidableEq, Repr

/-- `NSF_CONSTANTS.MIN_SENSE_WEIGHT` from `NS_Definitions`. -/
def MIN_SENSE_WEIGHT : ℚ := 1/100
/-- `NSF_CONSTANTS.BASE_DECAY_RATE` from `NS_Definitions`. -/
def BASE_DECAY_RATE : ℚ := 5/100
/-- `NSF_CONSTANTS.CONSOLIDATION_THRESHOLD` from `NS_Definitions`. -/
def CONSOLIDATION_THRESHOLD : ℚ := 1/10

/-- The `NS_WEIGHTS` lookup table from `NS_Definitions` (23 entries).
Only `decayModifier` is consulted by the decay pass; `weight`, `area` and
`description` are carried for completeness. -/
def NS_WEIGHTS (p : String) : Option NeuroSemanticWeight :=
  if p = "POZADANIE_SZCZYPTA" then some ⟨"Amygdala", 8/10, 5/10, "Spontaniczne pozadanie"⟩
  else if p = "NAMIENTNOSC_POZADANIA" then some ⟨"Amygdala/VTA", 95/100, 3/10, "Intensywne pozadanie"⟩
  else if p = "ISKRA_ZYCIA" then some ⟨"BrainStem/Reticular", 1, 0, "Podstawa swiadomosci"⟩
  else if p = "CHECI_PRAGNIENIA" then some ⟨"Amygdala/NAcc", 85/100, 4/10, "Aktywne pragnienie"⟩
  else if p = "ALGORYTM_ZAKOCHANIA" then some ⟨"NAcc/VTA", 9/10, 1/10, "System nagrody milosci"⟩
  else if p = "NADZIEJA_WYTRWALOSCI" then some ⟨"ACC/mPFC", 7/10, 15/100, "Motywacja dlugoterminowa"⟩
  else if p = "WIARA_JAKO_TAKA" then some ⟨"NAcc/Parietal", 65/100, 1/10, "Fundamentalne przekonania"⟩
  else if p = "CHECI_W_POJMOWANIU" then some ⟨"ACC/NAcc", 75/100, 2/10, "Motywacja poznawcza"⟩
  else if p = "PIERWIASTEK_MILOSCI" then some ⟨"VTA/NAcc/Insula", 85/100, 5/100, "Gleboka milosc"⟩
  else if p = "ALGORYTM_MILOSCI" then some ⟨"PFC/Insula", 8/10, 1/10, "Swiadoma milosc"⟩
  else if p = "SZCZYPTA_INTELIGENCJI" then some ⟨"dlPFC/Parietal", 7/10, 25/100, "Analityczne myslenie"⟩
  else if p = "POSWIECENIE" then some ⟨"mPFC/ACC", 9/10, 1/10, "Altruizm i moralnosc"⟩
  else if p = "SLOWO_CZY_CIALEM" then some ⟨"Broca/Wernicke", 6/10, 2/10, "Komunikacja"⟩
  else if p = "SEKUNDNIK" then some ⟨"Cerebellum/SCN", 95/100, 0, "Metronom swiadomosci"⟩
  else if p = "ZROZUMIENIE" then some ⟨"Hippocampus/TPJ", 8/10, 15/100, "Integracja wiedzy"⟩
  else if p = "POMYSL" then some ⟨"dlPFC/ACC", 75/100, 3/10, "Kreatywnosc"⟩
  else if p = "BRAK_WIARY_I_NADZIEI" then some ⟨"Amygdala/vlPFC", 6/10, 7/10, "Stan bezsilnosci"⟩
  else if p = "NIEUGIETA_BEZSILNOSC" then some ⟨"dlPFC/Amygdala", 7/10, 6/10, "Opor w trudnosciach"⟩
  else if p = "PRAGNIENIE_JAKO_TAKIE" then some ⟨"NAcc/Amygdala", 75/100, 35/100, "Podstawowe pragnienie"⟩
  else if p = "TRANSCENDENCJA_GRANIC" then some ⟨"dlPFC/Parietal/Insula", 85/100, 2/10, "Przekraczanie ograniczen"⟩
  else if p = "JEDNOSC_BYTU" then some ⟨"mPFC/Insula/Parietal", 9/10, 1/10, "Mistyczne doswiadczenie"⟩
  else if p = "MILOSC_BEZWARUNKOWA" then some ⟨"mPFC/Insula/VTA", 95/100, 5/100, "Najwyzsza forma milosci"⟩
  else if p = "INTUICJA_CZASOWA" then some ⟨"Insula/Cerebellum", 65/100, 3/10, "Wewnetrzne wyczucie czasu"⟩
  else if p = "ENERGIA_TWORCZA" then some ⟨"dlPFC/Hippocampus", 8/10, 25/100, "Sila kreatywna"⟩
  else none

/-- `Math.max` of the source, specialised to two rationals. -/
def jsMax (x y : ℚ) : ℚ := if x < y then y else x

/-! ## Association-list model of a JS `Map` -/

/-- `Map.get`: value of the first entry with the key. -/
def lookupKey (k : String) : List (String × β) → Option β
  | [] => none
  | (k', v) :: t => if k' = k then some v else lookupKey k t

/-- `Map.set`: replace the (first) entry with the key in place, else append. -/
def mapSet (k : String) (v : β) : List (String × β) → List (String × β)
  | [] => [(k, v)]
  | (k', v') :: t => if k' = k then (k, v) :: t else (k', v') :: mapSet k v t

/-- `Map.delete`: drop the entry with the key (a `Map` holds at most one). -/
def mapDelete (k : String) (m : List (String × β)) : List (String × β) :=
  m.filter (fun p => p.1 ≠ k)

/-- In-place update of the value stored under a key (the JS pattern
`map.get(k)` followed by mutation of the returned object). -/
def modifyValue (k : String) (f : β → β) (m : List (String × β)) : List (String × β) :=
  m.map (fun p => if p.1 = k then (p.1, f p.2) else p)

/-! ## SenseAtom

Fields of the `SenseAtom` class that some claim or some modelled code path
reads or writes. Optional metadata never consulted by the modelled code
(`neuralPathways`, `semanticVector`, `contextVector`, `source`,
`confidence`, `priority`, `emotionalBoostApplied`, `emotionalProcessingTime`,
`oxidativeStress`) is omitted. -/

structure SenseAtom where
  id : String
  label : String
  createdAt : ℤ
  senseWeight : ℚ
  baseSenseWeight : ℚ
  decayRate : ℚ
  detectedPierwiastki : List String
  primaryPierwiastek : Option String
  lastAccessTime : ℤ
  consolidationTime : Option ℤ
  totalActivations : ℕ
  amygdalaActivationLevel : Option AmygdalaLevel
  connections : List (String × ConnectionStrength)
  clusters : List String
  tags : List String
deriving DecidableEq, Repr

/-- The `SenseAtom` constructor: `new SenseAtom(id, label, initialWeight, pierwiastki)`
evaluated at time `now` (`Date.now()`). -/
def SenseAtom.mk' (id label : String) (initialWeight : ℚ) (pierwiastki : List String)
    (now : ℤ) : SenseAtom :=
  { id := id
    label := label
    createdAt := now
    senseWeight := initialWeight
    baseSenseWeight := initialWeight
    decayRate := 5/100
    detectedPierwiastki := pierwiastki
    primaryPierwiastek := none
    lastAccessTime := now
    consolidationTime := none
    totalActivations := 0
    amygdalaActivationLevel := none
    connections := []
    clusters := []
    tags := [] }

/-- `SenseAtom.addConnection(targetId, strength, type)` at time `now`. -/
def SenseAtom.addConnection (a : SenseAtom) (targetId : String) (strength : ℚ)
    (type : ConnectionType) (now : ℤ) : SenseAtom :=
  { a with connections := mapSet targetId ⟨strength, type, now⟩ a.connections }

/-- `SenseAtom.removeConnection(targetId)` (the boolean result is ignored by
every modelled caller). -/
def SenseAtom.removeConnection (a : SenseAtom) (targetId : String) : SenseAtom :=
  { a with connections := mapDelete targetId a.connections }

/-- `SenseAtom.shouldConsolidate()`. -/
def SenseAtom.shouldConsolidate (a : SenseAtom) : Prop :=
  (a.totalActivations ≥ 5 ∧ a.senseWeight ≥ 3/10) ∨
  (match a.amygdalaActivationLevel with
   | some l => l = AmygdalaLevel.HIGH ∨ l = AmygdalaLevel.EXTREME
   | none => False) ∨
  a.connections.length ≥ 3

instance (a : SenseAtom) : Decidable a.shouldConsolidate := by
  unfold SenseAtom.shouldConsolidate
  exact match a.amygdalaActivationLevel with
    | some l => by dsimp; infer_instance
    | none => by dsimp; infer_instance

/-! ## RelationalGraph -/

/-- `GraphStatistics` from `SenseAtom.ts`. -/
structure GraphStatistics where
  totalAtoms : ℕ
  totalConnections : ℚ
  averageWeight : ℚ
  consolidatedAtoms : ℕ
  lastUpdate : ℤ
deriving DecidableEq, Repr

structure RelationalGraph where
  atoms : List (String × SenseAtom)
  clusters : List (String × List String)
  statistics : GraphStatistics
deriving DecidableEq, Repr

/-- `new RelationalGraph()` at time `now`. -/
def RelationalGraph.empty (now : ℤ) : RelationalGraph :=
  { atoms := []
    clusters := []
    statistics := ⟨0, 0, 0, 0, now⟩ }

/-- `RelationalGraph.getAtom(id)`. -/
def RelationalGraph.getAtom (g : RelationalGraph) (id : String) : Option SenseAtom :=
  lookupKey id g.atoms

/-- `RelationalGraph.size()`. -/
def RelationalGraph.size (g : RelationalGraph) : ℕ := g.atoms.length

/-- `RelationalGraph.updateStatistics()` at time `now`. When the graph is
empty the source leaves `averageWeight` untouched. -/
def RelationalGraph.updateStatistics (g : RelationalGraph) (now : ℤ) : RelationalGraph :=
  { g with statistics :=
      { totalAtoms := g.atoms.length
        totalConnections := ((g.atoms.map (fun p => p.2.connections.length)).sum : ℚ) / 2
        averageWeight :=
          if g.atoms.length > 0 then
            ((g.atoms.map (fun p => p.2.senseWeight)).sum) / (g.atoms.length : ℚ)
          else g.statistics.averageWeight
        consolidatedAtoms := (g.atoms.filter (fun p => decide p.2.shouldConsolidate)).length
        lastUpdate := now } }

/-- `RelationalGraph.addAtom(atom)`: keyed by `atom.id` (upsert). -/
def RelationalGraph.addAtom (g : RelationalGraph) (atom : SenseAtom) (now : ℤ) :
    RelationalGraph :=
  RelationalGraph.updateStatistics { g with atoms := mapSet atom.id atom g.atoms } now

/-- `RelationalGraph.removeAtom(id)`: cascade-delete every adjacency entry
referencing `id`, drop `id` from every cluster, then delete the atom.
Returns `(found, newGraph)`. -/
def RelationalGraph.removeAtom (g : RelationalGraph) (id : String) (now : ℤ) :
    Bool × RelationalGraph :=
  match lookupKey id g.atoms with
  | none => (false, g)
  | some _ =>
    let atoms1 := g.atoms.map (fun p => (p.1, p.2.removeConnection id))
    let clusters1 := g.clusters.map (fun c => (c.1, c.2.filter (fun x => x ≠ id)))
    let removed := (lookupKey id atoms1).isSome
    let g1 : RelationalGraph :=
      { g with atoms := mapDelete id atoms1, clusters := clusters1 }
    (removed, if removed then g1.updateStatistics now else g1)

/-- `RelationalGraph.createConnection(sourceId, targetId, strength, type)`:
returns `false` untouched if either endpoint is absent, else adds the edge
on both endpoints ("Dwukierunkowe połączenie"). -/
def RelationalGraph.createConnection (g : RelationalGraph) (sourceId targetId : String)
    (strength : ℚ) (type : ConnectionType) (now : ℤ) : Bool × RelationalGraph :=
  match lookupKey sourceId g.atoms, lookupKey targetId g.atoms with
  | some _, some _ =>
    let atoms1 := modifyValue sourceId
      (fun a => a.addConnection targetId strength type now) g.atoms
    let atoms2 := modifyValue targetId
      (fun a => a.addConnection sourceId strength type now) atoms1
    (true, RelationalGraph.updateStatistics { g with atoms := atoms2 } now)
  | _, _ => (false, g)

/-- First-occurrence deduplication, as performed by `new Set(atomIds)`. -/
def dedupKeepFirst (l : List String) : List String :=
  l.foldl (fun acc x => if x ∈ acc then acc else acc ++ [x]) []

/-- `RelationalGraph.createCluster(name, atomIds)`: store the id set and push
the cluster name onto each member atom's `clusters` list. -/
def RelationalGraph.createCluster (g : RelationalGraph) (name : String)
    (atomIds : List String) : RelationalGraph :=
  let g1 : RelationalGraph := { g with clusters := mapSet name (dedupKeepFirst atomIds) g.clusters }
  atomIds.foldl
    (fun h id =>
      match lookupKey id h.atoms with
      | some _ => { h with atoms := modifyValue id (fun a => { a with clusters := a.clusters ++ [name] }) h.atoms }
      | none => h)
    g1

/-- The weak-connection pruning step of `RelationalGraph.optimize()` applied
to one atom: drop every connection with `strength < 0.1`. -/
def pruneAtom (a : SenseAtom) : SenseAtom :=
  { a with connections := a.connections.filter (fun c => ¬ c.2.strength < 1/10) }

/-- The isolated-low-weight removal predicate of `RelationalGraph.optimize()`. -/
def optimizeRemovable (a : SenseAtom) : Prop :=
  a.connections.length = 0 ∧ a.senseWeight < 1/10 ∧ a.totalActivations < 2

instance (a : SenseAtom) : Decidable (optimizeRemovable a) := by
  unfold optimizeRemovable; infer_instance

/-- `RelationalGraph.optimize()`: prune weak connections, then remove
isolated low-weight rarely-activated atoms, then refresh statistics. -/
def RelationalGraph.optimize (g : RelationalGraph) (now : ℤ) : RelationalGraph :=
  let g1 : RelationalGraph := { g with atoms := g.atoms.map (fun p => (p.1, pruneAtom p.2)) }
  let toRemove := (g1.atoms.filter (fun p => decide (optimizeRemovable p.2))).map (fun p => p.2.id)
  let g2 := toRemove.foldl (fun h id => (h.removeAtom id now).2) g1
  g2.updateStatistics now

/-! ## Decay scheduler

`DecayScheduler` from the compiled `excitationEngine.js` bundle. The
constructor's `config` enables every modifier (`enableAdaptiveDecay`,
`emotionalProtection`, `temporalBonus`, `connectionPreservation` all
`true`), so the corresponding branches are always taken. -/

/-- `applyElementBasedDecay(atom, baseDecayRate)`: scale by the minimum
`decayModifier` over the atom's detected pierwiastki (floor 1.0 start). -/
def applyElementBasedDecay (a : SenseAtom) (baseDecayRate : ℚ) : ℚ :=
  if a.detectedPierwiastki = [] then baseDecayRate
  else
    let minDecayModifier := a.detectedPierwiastki.foldl
      (fun m p => match NS_WEIGHTS p with
        | some d => min m d.decayModifier
        | none => m) 1
    baseDecayRate * minDecayModifier

/-- `applyAdaptiveDecay(atom, baseDecayRate, currentTime)`. -/
def applyAdaptiveDecay (a : SenseAtom) (baseDecayRate : ℚ) (currentTime : ℤ) : ℚ :=
  let daysSinceAccess : ℚ := ((currentTime - a.lastAccessTime : ℤ) : ℚ) / 86400000
  let m1 : ℚ :=
    if daysSinceAccess > 30 then 2
    else if daysSinceAccess > 7 then 15/10
    else if daysSinceAccess > 1 then 12/10
    else if daysSinceAccess < 1/10 then 5/10
    else 1
  let m2 : ℚ :=
    if a.totalActivations > 10 then m1 * (8/10)
    else if a.totalActivations > 5 then m1 * (9/10)
    else m1
  baseDecayRate * m2

/-- `applyEmotionalProtection(atom, baseDecayRate)`. -/
def applyEmotionalProtection (a : SenseAtom) (baseDecayRate : ℚ) : ℚ :=
  match a.amygdalaActivationLevel with
  | none => baseDecayRate
  | some l =>
    baseDecayRate * (match l with
      | AmygdalaLevel.MINIMAL => 1
      | AmygdalaLevel.LOW => 9/10
      | AmygdalaLevel.MEDIUM => 7/10
      | AmygdalaLevel.HIGH => 5/10
      | AmygdalaLevel.EXTREME => 2/10)

/-- `applyTemporalBonus(atom, baseDecayRate, currentTime)`. -/
def applyTemporalBonus (a : SenseAtom) (baseDecayRate : ℚ) (currentTime : ℤ) : ℚ :=
  let hoursSinceAccess : ℚ := ((currentTime - a.lastAccessTime : ℤ) : ℚ) / 3600000
  if hoursSinceAccess < 1 then baseDecayRate * (3/10)
  else if hoursSinceAccess < 6 then baseDecayRate * (6/10)
  else if hoursSinceAccess < 24 then baseDecayRate * (8/10)
  else baseDecayRate

/-- `applyConnectionProtection(atom, baseDecayRate)`. -/
def applyConnectionProtection (a : SenseAtom) (baseDecayRate : ℚ) : ℚ :=
  if a.connections.length ≥ 5 then baseDecayRate * (6/10)
  else if a.connections.length ≥ 3 then baseDecayRate * (8/10)
  else baseDecayRate

/-- `isProtectedFromRemoval(atom)` at time `now`. -/
def isProtectedFromRemoval (a : SenseAtom) (now : ℤ) : Prop :=
  (match a.amygdalaActivationLevel with
   | some l => l = AmygdalaLevel.HIGH ∨ l = AmygdalaLevel.EXTREME
   | none => False) ∨
  (∃ p ∈ a.detectedPierwiastki,
      p = "ISKRA_ZYCIA" ∨ p = "SEKUNDNIK" ∨ p = "PIERWIASTEK_MILOSCI") ∨
  a.connections.length ≥ 5 ∨
  (match a.consolidationTime with
   | some t => now - t < 86400000
   | none => False)

instance (a : SenseAtom) (now : ℤ) : Decidable (isProtectedFromRemoval a now) := by
  unfold isProtectedFromRemoval
  exact match a.amygdalaActivationLevel, a.consolidationTime with
    | some _, some _ => by dsimp; infer_instance
    | some _, none => by dsimp; infer_instance
    | none, some _ => by dsimp; infer_instance
    | none, none => by dsimp; infer_instance

/-- The per-atom verdict record returned by `processAtomDecay` (only the
fields read by `applyDecay` are kept). -/
structure DecayResult where
  decayApplied : ℚ
  decayAmount : ℚ
  shouldRemove : Bool
  shouldConsolidate : Bool
deriving DecidableEq, Repr

/-- `processAtomDecay(atom, graph)` at time `now` (the `graph` argument is
never read by the source body). Computes the effective decay rate through
the five modifiers, shrinks the weight with a zero floor, and reports the
removal/consolidation verdicts. -/
def processAtomDecay (a : SenseAtom) (now : ℤ) : SenseAtom × DecayResult :=
  let decayRate0 := if a.decayRate = 0 then BASE_DECAY_RATE else a.decayRate
  let r1 := applyElementBasedDecay a decayRate0
  let r2 := applyAdaptiveDecay a r1 now
  let r3 := applyEmotionalProtection a r2
  let r4 := applyTemporalBonus a r3 now
  let r5 := applyConnectionProtection a r4
  let decayAmount := a.senseWeight * r5
  let a' := { a with senseWeight := jsMax (a.senseWeight - decayAmount) 0 }
  let shouldRemove :=
    decide (a'.senseWeight < MIN_SENSE_WEIGHT) && ! decide (isProtectedFromRemoval a' now)
  let shouldConsolidate :=
    decide a'.shouldConsolidate && decide (a'.senseWeight ≥ CONSOLIDATION_THRESHOLD)
  (a', ⟨r5, decayAmount, shouldRemove, shouldConsolidate⟩)

/-- `consolidateAtom(atom)` at time `now`: stamp the consolidation time,
halve the decay rate, rebase the base weight. -/
def consolidateAtom (a : SenseAtom) (now : ℤ) : SenseAtom :=
  { a with consolidationTime := some now
           decayRate := a.decayRate * (5/10)
           baseSenseWeight := a.senseWeight }

/-- `DecayScheduler.applyDecay(relationalGraph)` at time `now`: decay every
atom, remove the atoms marked for removal, consolidate the atoms marked for
consolidation, and run `optimize` when at least one removal succeeded. -/
def applyDecay (g : RelationalGraph) (now : ℤ) : RelationalGraph :=
  let pairs := g.atoms.map (fun p => (p.1, processAtomDecay p.2 now))
  let g1 : RelationalGraph := { g with atoms := pairs.map (fun p => (p.1, p.2.1)) }
  let atomsToRemove := (pairs.filter (fun p => p.2.2.shouldRemove)).map (fun p => p.2.1.id)
  let atomsToConsolidate :=
    (pairs.filter (fun p => ! p.2.2.shouldRemove && p.2.2.shouldConsolidate)).map
      (fun p => p.2.1.id)
  let rc := atomsToRemove.foldl
    (fun (s : RelationalGraph × ℕ) id =>
      let r := s.1.removeAtom id now
      (r.2, if r.1 then s.2 + 1 else s.2))
    (g1, 0)
  let g3 := atomsToConsolidate.foldl
    (fun h id =>
      match lookupKey id h.atoms with
      | some _ => { h with atoms := modifyValue id (fun a => consolidateAtom a now) h.atoms }
      | none => h)
    rc.1
  if rc.2 > 0 then g3.optimize now else g3

/-! ## Excitation pass -/

/-- `String.prototype.toLowerCase` restricted to the alphabet the keyword
table uses: ASCII letters and the Polish diacritics. -/
def lowerChar (c : Char) : Char :=
  if 'A' ≤ c ∧ c ≤ 'Z' then Char.ofNat (c.toNat + 32)
  else if c = 'Ą' then 'ą' else if c = 'Ć' then 'ć'
  else if c = 'Ę' then 'ę' else if c = 'Ł' then 'ł'
  else if c = 'Ń' then 'ń' else if c = 'Ó' then 'ó'
  else if c = 'Ś' then 'ś' else if c = 'Ź' then 'ź'
  else if c = 'Ż' then 'ż' else c

def toLowerString (s : String) : List Char := s.toList.map lowerChar

/-- Does `hay` start with `needle`? -/
def listStartsWith : List Char → List Char → Bool
  | [], _ => true
  | _ :: _, [] => false
  | a :: as, b :: bs => a == b && listStartsWith as bs

/-- `String.prototype.includes` on character lists. -/
def listContains (needle : List Char) : List Char → Bool
  | [] => needle.isEmpty
  | c :: t => listStartsWith needle (c :: t) || listContains needle t

/-- The `keywordMap` of `detectPierwiastkiInQuery`. -/
def keywordMap : List (String × List String) :=
  [("ALGORYTM_ZAKOCHANIA", ["miłość", "zakochanie", "uczucie", "romans"]),
   ("NADZIEJA_WYTRWALOSCI", ["nadzieja", "wytrwałość", "determinacja", "cel"]),
   ("SZCZYPTA_INTELIGENCJI", ["inteligencja", "mądrość", "analiza", "logika"]),
   ("POSWIECENIE", ["poświęcenie", "altruizm", "dla innych", "ofiara"]),
   ("ZROZUMIENIE", ["rozumiem", "zrozumienie", "pojmuję", "jasne"]),
   ("POMYSL", ["pomysł", "idea", "koncepcja", "rozwiązanie"]),
   ("BRAK_WIARY_I_NADZIEI", ["beznadzieja", "rozpacz", "nie wierzę", "brak wiary"]),
   ("ISKRA_ZYCIA", ["życie", "energia", "siła", "iskra"]),
   ("SEKUNDNIK", ["czas", "rytm", "cykl", "takt"])]

/-- `detectPierwiastkiInQuery(query)`: collect every pierwiastek one of
whose keywords occurs in the lowercased query. -/
def detectPierwiastkiInQuery (query : String) : List String :=
  let queryLower := toLowerString query
  keywordMap.foldl
    (fun detected pk =>
      if pk.2.any (fun kw => listContains (toLowerString kw) queryLower) then
        detected ++ [pk.1]
      else detected)
    []

/-- The per-atom body of the excitation loop in `processContextExcitation`:
boost the weight by `1 + overlap/detected` and refresh the access time when
the atom's pierwiastki overlap the detected ones; leave it untouched
otherwise. -/
def exciteAtom (detectedElements : List String) (now : ℤ) (a : SenseAtom) : SenseAtom :=
  let overlap := a.detectedPierwiastki.filter (fun p => p ∈ detectedElements)
  if overlap.length > 0 then
    { a with
        senseWeight := a.senseWeight * (1 + (overlap.length : ℚ) / (detectedElements.length : ℚ)),
        lastAccessTime := now }
  else a

/-- `processContextExcitation(relationalGraph, query)` at time `now`, in the
branch where a query is supplied. (The `query === null` spontaneous branch,
and the sorted copy of the activated atoms handed to later phases, are not
modelled: no claim refers to them, and they do not touch the graph beyond
the access-time refresh below.) -/
def processContextExcitation (g : RelationalGraph) (query : String) (now : ℤ) :
    RelationalGraph :=
  let detectedElements := detectPierwiastkiInQuery query
  { g with atoms := g.atoms.map (fun p => (p.1, exciteAtom detectedElements now p.2)) }

/-! ## Serialization -/

/-- The per-atom snapshot produced by `SenseAtom.toJSON()`. The derived
`overallStrength` field (a float involving `Math.log`) is exported by the
source but never read back — `fromJSON` assigns it onto the rebuilt object
as an expando property no code consults — so it is omitted here. -/
structure SenseAtomJSON where
  id : String
  label : String
  senseWeight : ℚ
  detectedPierwiastki : List String
  primaryPierwiastek : Option String
  lastAccessTime : ℤ
  totalActivations : ℕ
  amygdalaActivationLevel : Option AmygdalaLevel
  connections : List (String × ConnectionStrength)
deriving DecidableEq, Repr

/-- `SenseAtom.toJSON()`. -/
def SenseAtom.toJSON (a : SenseAtom) : SenseAtomJSON :=
  { id := a.id
    label := a.label
    senseWeight := a.senseWeight
    detectedPierwiastki := a.detectedPierwiastki
    primaryPierwiastek := a.primaryPierwiastek
    lastAccessTime := a.lastAccessTime
    totalActivations := a.totalActivations
    amygdalaActivationLevel := a.amygdalaActivationLevel
    connections := a.connections }

/-- The graph snapshot produced by `RelationalGraph.toJSON()`. -/
structure GraphJSON where
  atoms : List SenseAtomJSON
  clusters : List (String × List String)
  statistics : GraphStatistics
deriving DecidableEq, Repr

/-- `RelationalGraph.toJSON()`. -/
def RelationalGraph.toJSON (g : RelationalGraph) : GraphJSON :=
  { atoms := g.atoms.map (fun p => p.2.toJSON)
    clusters := g.clusters.map (fun c => (c.1, c.2))
    statistics := g.statistics }

/-- Rebuilding one atom inside `RelationalGraph.fromJSON`: the constructor
runs at import time `now`, then `Object.assign(atom, atomData)` restores the
exported fields, then `connections` is rebuilt from the entry list. Fields
absent from the snapshot (`createdAt`, `baseSenseWeight`, `decayRate`,
`consolidationTime`, `clusters`, `tags`) keep their constructor values. -/
def atomFromJSON (d : SenseAtomJSON) (now : ℤ) : SenseAtom :=
  let atom := SenseAtom.mk' d.id d.label d.senseWeight d.detectedPierwiastki now
  { atom with
      id := d.id
      label := d.label
      senseWeight := d.senseWeight
      detectedPierwiastki := d.detectedPierwiastki
      primaryPierwiastek := d.primaryPierwiastek
      lastAccessTime := d.lastAccessTime
      totalActivations := d.totalActivations
      amygdalaActivationLevel := d.amygdalaActivationLevel
      connections := d.connections }

/-- `RelationalGraph.fromJSON(data)` at import time `now`: rebuild and add
every atom, then re-create every cluster. The exported `statistics` block is
ignored by the source. -/
def RelationalGraph.fromJSON (data : GraphJSON) (now : ℤ) : RelationalGraph :=
  let g1 := data.atoms.foldl (fun g d => g.addAtom (atomFromJSON d now) now)
    (RelationalGraph.empty now)
  data.clusters.foldl (fun g c => g.createCluster c.1 c.2) g1

/-! ## Graph well-formedness -/

/-- The states an actual JS `RelationalGraph` can be in: the atom map's keys
are distinct and every atom is stored under its own `id` (the only insertion
path, `addAtom`, keys by `atom.id`). -/
def RelationalGraph.WF (g : RelationalGraph) : Prop :=
  (g.atoms.map Prod.fst).Nodup ∧ ∀ p ∈ g.atoms, p.2.id = p.1

instance (g : RelationalGraph) : Decidable g.WF := by
  unfold RelationalGraph.WF; infer_instance

/-- The adjacency-symmetry invariant of the data model: an edge entry on an
atom pointing at another atom of the graph is mirrored by an identical entry
in the opposite direction. -/
def RelationalGraph.Symm (g : RelationalGraph) : Prop :=
  ∀ ka a kb b c, (ka, a) ∈ g.atoms → (kb, b) ∈ g.atoms →
    (kb, c) ∈ a.connections → (ka, c) ∈ b.connections

/-- Total number of directed adjacency entries over all atoms. -/
def RelationalGraph.totalEdgeEntries (g : RelationalGraph) : ℕ :=
  (g.atoms.map (fun p => p.2.connections.length)).sum

/-! ## Association-list lemmas -/

theorem lookupKey_valueMap (f : β → β) (k : String) :
    ∀ m : List (String × β),
      lookupKey k (m.map (fun p => (p.1, f p.2))) = (lookupKey k m).map f
  | [] => rfl
  | (k', v) :: t => by
    by_cases h : k' = k <;> simp [lookupKey, h, lookupKey_valueMap f k t]

theorem lookupKey_mapSet_self (k : String) (v : β) :
    ∀ m : List (String × β), lookupKey k (mapSet k v m) = some v
  | [] => by simp [mapSet, lookupKey]
  | (k', v') :: t => by
    by_cases h : k' = k <;> simp [mapSet, lookupKey, h, lookupKey_mapSet_self k v t]

theorem lookupKey_modifyValue (k id : String) (f : β → β) (m : List (String × β)) :
    lookupKey k (modifyValue id f m) =
      if k = id then (lookupKey k m).map f else lookupKey k m := by
  by_cases hk : k = id
  · subst hk
    simp only [if_pos rfl]
    induction m with
    | nil => simp [modifyValue, lookupKey]
    | cons p t ih =>
      obtain ⟨k', v⟩ := p
      simp only [modifyValue, List.map_cons] at ih ⊢
      by_cases h : k' = k
      · rw [if_pos h]
        simp [lookupKey, h]
      · rw [if_neg h]
        simp [lookupKey, h, ih]
  · simp only [if_neg hk]
    induction m with
    | nil => simp [modifyValue, lookupKey]
    | cons p t ih =>
      obtain ⟨k', v⟩ := p
      simp only [modifyValue, List.map_cons] at ih ⊢
      by_cases h1 : k' = id
      · rw [if_pos h1]
        have h2 : ¬ k' = k := fun hh => hk (hh.symm.trans h1)
        have h2i : ¬ id = k := fun hh => hk hh.symm
        simp [lookupKey, h2, h2i, ih]
      · rw [if_neg h1]
        by_cases h2 : k' = k <;> simp [lookupKey, h2, ih]

theorem mem_modifyValue {m : List (String × β)} {k : String} {f : β → β} {p : String × β}
    (hp : p ∈ modifyValue k f m) :
    ∃ q ∈ m, p = if q.1 = k then (q.1, f q.2) else q := by
  obtain ⟨q, hq, rfl⟩ := List.mem_map.mp hp
  exact ⟨q, hq, rfl⟩

/-! ## Simple structural facts about the graph operations -/

theorem updateStatistics_atoms (g : RelationalGraph) (now : ℤ) :
    (g.updateStatistics now).atoms = g.atoms := rfl

theorem updateStatistics_clusters (g : RelationalGraph) (now : ℤ) :
    (g.updateStatistics now).clusters = g.clusters := rfl

/-- `removeAtom` on a present key: explicit form of the result. -/
theorem removeAtom_present {g : RelationalGraph} {id : String} {a0 : SenseAtom} (now : ℤ)
    (h : lookupKey id g.atoms = some a0) :
    g.removeAtom id now =
      (true,
        RelationalGraph.updateStatistics
          { g with
              atoms := mapDelete id (g.atoms.map (fun p => (p.1, p.2.removeConnection id)))
              clusters := g.clusters.map (fun c => (c.1, c.2.filter (fun x => x ≠ id))) } now) := by
  unfold RelationalGraph.removeAtom
  rw [h]
  have hlook : lookupKey id (g.atoms.map (fun p => (p.1, p.2.removeConnection id)))
      = some (a0.removeConnection id) := by
    have h2 := lookupKey_valueMap (fun a => SenseAtom.removeConnection a id) id g.atoms
    rw [h] at h2
    exact h2
  simp [hlook]

/-- `removeAtom` on an absent key leaves the graph untouched and reports failure. -/
theorem removeAtom_absent {g : RelationalGraph} {id : String} (now : ℤ)
    (h : lookupKey id g.atoms = none) :
    g.removeAtom id now = (false, g) := by
  unfold RelationalGraph.removeAtom
  rw [h]

/-! ## Concrete graphs used by witnesses -/

def wAtom (id : String) : SenseAtom := SenseAtom.mk' id id 1 [] 0

def wAtomB : SenseAtom :=
  { wAtom "b" with connections := [("a", ⟨1/2, ConnectionType.SEMANTIC, 0⟩)] }

def wGraphAB : RelationalGraph :=
  { atoms := [("a", wAtom "a"), ("b", wAtom "b")]
    clusters := []
    statistics := ⟨2, 0, 1, 0, 0⟩ }

def wGraphC3 : RelationalGraph :=
  { atoms := [("a", wAtom "a"), ("b", wAtomB)]
    clusters := [("c1", ["a", "b"])]
    statistics := ⟨2, 1/2, 1, 0, 0⟩ }

/-! ## C9 — missing-entity operations -/

/-- C9: `createConnection` with at least one absent endpoint returns `false`
and leaves the graph (hence every node's adjacency map) unchanged, and
`removeAtom` of an absent identity returns `false` and leaves the graph
unchanged; both are total functions, so no exception is possible. -/
theorem missing_entity_returns_false (g : RelationalGraph) (A B X : String) (S : ℚ)
    (K : ConnectionType) (now : ℤ)
    (hAB : lookupKey A g.atoms = none ∨ lookupKey B g.atoms = none)
    (hX : lookupKey X g.atoms = none) :
    g.createConnection A B S K now = (false, g) ∧ g.removeAtom X now = (false, g) := by
  constructor
  · unfold RelationalGraph.createConnection
    rcases hAB with h | h
    · cases hB : lookupKey B g.atoms <;> rw [h]
    · cases hA : lookupKey A g.atoms <;> rw [h]
  · exact removeAtom_absent now hX

theorem missing_entity_returns_false_witness :
    wGraphAB.createConnection "a" "zz" 1 ConnectionType.SEMANTIC 5 = (false, wGraphAB) ∧
    wGraphAB.removeAtom "zz" 5 = (false, wGraphAB) :=
  missing_entity_returns_false wGraphAB "a" "zz" "zz" 1 ConnectionType.SEMANTIC 5
    (Or.inr rfl) rfl

/-! ## C2 — symmetric edge creation -/

/-- C2: after a successful `createConnection(A, B, S, K)` on a graph
containing both `A` and `B`, `A`'s adjacency map has an edge to `B` with
strength `S` and kind `K`, and `B`'s adjacency map has the mirror edge to
`A` with the identical strength and kind. -/
theorem createConnection_symmetric (g : RelationalGraph) (A B : String) {a b : SenseAtom}
    (S : ℚ) (K : ConnectionType) (now : ℤ)
    (ha : lookupKey A g.atoms = some a) (hb : lookupKey B g.atoms = some b) :
    (g.createConnection A B S K now).1 = true ∧
    ∃ a' b',
      lookupKey A (g.createConnection A B S K now).2.atoms = some a' ∧
      lookupKey B (g.createConnection A B S K now).2.atoms = some b' ∧
      lookupKey B a'.connections = some ⟨S, K, now⟩ ∧
      lookupKey A b'.connections = some ⟨S, K, now⟩ := by
  unfold RelationalGraph.createConnection
  rw [ha, hb]
  simp only [updateStatistics_atoms]
  refine ⟨trivial, ?_⟩
  by_cases hab : A = B
  · subst hab
    refine ⟨(a.addConnection A S K now).addConnection A S K now,
            (a.addConnection A S K now).addConnection A S K now, ?_, ?_, ?_, ?_⟩
    · rw [lookupKey_modifyValue, if_pos rfl, lookupKey_modifyValue, if_pos rfl, ha]; rfl
    · rw [lookupKey_modifyValue, if_pos rfl, lookupKey_modifyValue, if_pos rfl, ha]; rfl
    · simp [SenseAtom.addConnection, lookupKey_mapSet_self]
    · simp [SenseAtom.addConnection, lookupKey_mapSet_self]
  · refine ⟨a.addConnection B S K now, b.addConnection A S K now, ?_, ?_, ?_, ?_⟩
    · rw [lookupKey_modifyValue, if_neg hab, lookupKey_modifyValue, if_pos rfl, ha]; rfl
    · rw [lookupKey_modifyValue, if_pos rfl, lookupKey_modifyValue,
        if_neg (fun hh => hab hh.symm), hb]; rfl
    · simp [SenseAtom.addConnection, lookupKey_mapSet_self]
    · simp [SenseAtom.addConnection, lookupKey_mapSet_self]

theorem createConnection_symmetric_witness :
    (wGraphAB.createConnection "a" "b" (1/2) ConnectionType.SEMANTIC 7).1 = true ∧
    ∃ a' b',
      lookupKey "a" (wGraphAB.createConnection "a" "b" (1/2) ConnectionType.SEMANTIC 7).2.atoms
        = some a' ∧
      lookupKey "b" (wGraphAB.createConnection "a" "b" (1/2) ConnectionType.SEMANTIC 7).2.atoms
        = some b' ∧
      lookupKey "b" a'.connections = some ⟨1/2, ConnectionType.SEMANTIC, 7⟩ ∧
      lookupKey "a" b'.connections = some ⟨1/2, ConnectionType.SEMANTIC, 7⟩ :=
  createConnection_symmetric wGraphAB "a" "b" (1/2) ConnectionType.SEMANTIC 7 rfl rfl

/-! ## C3 — removal leaves no dangling references -/

/-- C3: after `removeAtom(X)` on a graph containing `X`, no remaining
node's adjacency map holds an entry targeting `X`, `X` is absent from every
cluster, and the call returned `true`. -/
theorem removeAtom_removes_all_references (g : RelationalGraph) (X : String) (now : ℤ)
    {a0 : SenseAtom} (h : lookupKey X g.atoms = some a0) :
    (g.removeAtom X now).1 = true ∧
    (∀ p ∈ (g.removeAtom X now).2.atoms, ∀ c, (X, c) ∉ p.2.connections) ∧
    (∀ q ∈ (g.removeAtom X now).2.clusters, X ∉ q.2) := by
  rw [removeAtom_present now h]
  refine ⟨rfl, ?_, ?_⟩
  · intro p hp c hc
    simp only [updateStatistics_atoms] at hp
    have hp1 : p ∈ (g.atoms.map (fun p => (p.1, p.2.removeConnection X))) :=
      List.mem_of_mem_filter hp
    obtain ⟨q, _, hpq⟩ := List.mem_map.mp hp1
    rw [← hpq] at hc
    simp only [SenseAtom.removeConnection, mapDelete] at hc
    have := (List.mem_filter.mp hc).2
    simp at this
  · intro q hq hx
    simp only [updateStatistics_clusters] at hq
    obtain ⟨r, _, hrq⟩ := List.mem_map.mp hq
    rw [← hrq] at hx
    have := (List.mem_filter.mp hx).2
    simp at this

theorem removeAtom_removes_all_references_witness :
    (wGraphC3.removeAtom "a" 9).1 = true ∧
    (∀ p ∈ (wGraphC3.removeAtom "a" 9).2.atoms, ∀ c, ("a", c) ∉ p.2.connections) ∧
    (∀ q ∈ (wGraphC3.removeAtom "a" 9).2.clusters, "a" ∉ q.2) :=
  removeAtom_removes_all_references wGraphC3 "a" 9 rfl

/-! ## C7 — concrete decay scenario -/

/-- The node of the concrete scenario: weight `1.0`, decay coefficient
`0.05`, empty tag set, no amygdala level, no connections, zero activations,
last access at time `0`. -/
def atomC7 : SenseAtom :=
  { id := "n", label := "n", createdAt := 0, senseWeight := 1, baseSenseWeight := 1,
    decayRate := 5/100, detectedPierwiastki := [], primaryPierwiastek := none,
    lastAccessTime := 0, consolidationTime := none, totalActivations := 0,
    amygdalaActivationLevel := none, connections := [], clusters := [], tags := [] }

def graphC7 : RelationalGraph :=
  { atoms := [("n", atomC7)], clusters := [], statistics := ⟨1, 0, 1, 0, 0⟩ }

/-- C7: a single Decay Pass run 31 days (2678400000 ms) after the node's
last access reduces its weight to exactly `1 − 1×(0.05×2.0) = 0.90`: only
the recency multiplier `2.0` fires, every other modifier leaves the rate
unchanged. -/
theorem decayPass_concrete_scenario :
    ((applyDecay graphC7 2678400000).getAtom "n").map (fun a => a.senseWeight)
      = some (9/10) ∧
    (processAtomDecay atomC7 2678400000).2.decayApplied = (5/100) * 2 := by
  constructor
  · norm_num [applyDecay, processAtomDecay, applyElementBasedDecay, applyAdaptiveDecay,
      applyEmotionalProtection, applyTemporalBonus, applyConnectionProtection,
      BASE_DECAY_RATE, MIN_SENSE_WEIGHT, CONSOLIDATION_THRESHOLD, jsMax, atomC7, graphC7,
      RelationalGraph.getAtom, mapSet, lookupKey, isProtectedFromRemoval,
      SenseAtom.shouldConsolidate, modifyValue, RelationalGraph.updateStatistics]
  · norm_num [processAtomDecay, applyElementBasedDecay, applyAdaptiveDecay,
      applyEmotionalProtection, applyTemporalBonus, applyConnectionProtection,
      BASE_DECAY_RATE, jsMax, atomC7]

/-! ## C8 — excitation boosts exactly the matching nodes -/

/-- C8: when the derived tag set of a query is non-empty, the Excitation
Pass multiplies the weight of every node whose tag set intersects it by
`1 + overlap/derived` and stamps its access time with `now`, and keeps every
non-matching node (weight and access timestamp included) entirely
unchanged. -/
theorem excitation_boosts_exactly_matching (g : RelationalGraph) (query : String)
    (now : ℤ) (_hne : detectPierwiastkiInQuery query ≠ [])
    (p : String × SenseAtom) (hp : p ∈ g.atoms) :
    (0 < (p.2.detectedPierwiastki.filter
        (fun q => q ∈ detectPierwiastkiInQuery query)).length →
      (p.1, { p.2 with
          senseWeight := p.2.senseWeight *
            (1 + ((p.2.detectedPierwiastki.filter
                (fun q => q ∈ detectPierwiastkiInQuery query)).length : ℚ) /
              ((detectPierwiastkiInQuery query).length : ℚ)),
          lastAccessTime := now })
        ∈ (processContextExcitation g query now).atoms) ∧
    ((p.2.detectedPierwiastki.filter
        (fun q => q ∈ detectPierwiastkiInQuery query)).length = 0 →
      p ∈ (processContextExcitation g query now).atoms) := by
  constructor
  · intro hov
    unfold processContextExcitation
    refine List.mem_map.mpr ⟨p, hp, ?_⟩
    unfold exciteAtom
    rw [if_pos hov]
  · intro hov
    unfold processContextExcitation
    refine List.mem_map.mpr ⟨p, hp, ?_⟩
    unfold exciteAtom
    rw [if_neg (by omega)]

/-- Witness: the query `"miłość"` (detected tag set
`["ALGORYTM_ZAKOCHANIA"]`) doubles the weight of the node carrying that tag
and leaves the unrelated node untouched. -/
def atomLove : SenseAtom :=
  { wAtom "love" with detectedPierwiastki := ["ALGORYTM_ZAKOCHANIA"] }

def atomOther : SenseAtom :=
  { wAtom "other" with detectedPierwiastki := ["SEKUNDNIK"] }

def graphC8 : RelationalGraph :=
  { atoms := [("love", atomLove), ("other", atomOther)], clusters := []
    statistics := ⟨2, 0, 1, 0, 0⟩ }

theorem excitation_boosts_exactly_matching_witness :
    (("love", { atomLove with
        senseWeight := atomLove.senseWeight *
          (1 + ((atomLove.detectedPierwiastki.filter
              (fun q => q ∈ detectPierwiastkiInQuery "miłość")).length : ℚ) /
            ((detectPierwiastkiInQuery "miłość").length : ℚ)),
        lastAccessTime := 11 })
      ∈ (processContextExcitation graphC8 "miłość" 11).atoms) ∧
    (("other", atomOther) ∈ (processContextExcitation graphC8 "miłość" 11).atoms) := by
  constructor
  · exact (excitation_boosts_exactly_matching graphC8 "miłość" 11 (by decide)
      ("love", atomLove) (by simp [graphC8])).1 (by decide)
  · exact (excitation_boosts_exactly_matching graphC8 "miłość" 11 (by decide)
      ("other", atomOther) (by simp [graphC8])).2 (by decide)

/-! ## Provenance of atoms through the decay pipeline

Every stage of `applyDecay` after the initial per-atom decay map only
filters atoms out or rewrites them in ways that keep the weight and never
clear a set consolidation timestamp. `EntryCarries q p` captures this:
entry `p` descends from entry `q` under the same key, with equal weight,
and with `consolidationTime` at least as defined. -/

def EntryCarries (q p : String × SenseAtom) : Prop :=
  q.1 = p.1 ∧ p.2.senseWeight = q.2.senseWeight ∧
    (q.2.consolidationTime.isSome → p.2.consolidationTime.isSome)

theorem entryCarries_refl (p : String × SenseAtom) : EntryCarries p p :=
  ⟨rfl, rfl, fun h => h⟩

theorem entryCarries_trans {q r p : String × SenseAtom}
    (h1 : EntryCarries q r) (h2 : EntryCarries r p) : EntryCarries q p :=
  ⟨h1.1.trans h2.1, h2.2.1.trans h1.2.1, fun h => h2.2.2 (h1.2.2 h)⟩

theorem entryCarries_removeConnection (q : String × SenseAtom) (x : String) :
    EntryCarries q (q.1, q.2.removeConnection x) :=
  ⟨rfl, rfl, fun h => h⟩

theorem entryCarries_pruneAtom (q : String × SenseAtom) :
    EntryCarries q (q.1, pruneAtom q.2) :=
  ⟨rfl, rfl, fun h => h⟩

theorem entryCarries_consolidate (q : String × SenseAtom) (now : ℤ) :
    EntryCarries q (q.1, consolidateAtom q.2 now) :=
  ⟨rfl, rfl, fun _ => rfl⟩

/-- The atom list of `removeAtom`'s result, by cases on presence. -/
theorem removeAtom_atoms (g : RelationalGraph) (id : String) (now : ℤ) :
    (g.removeAtom id now).2.atoms =
      match lookupKey id g.atoms with
      | none => g.atoms
      | some _ => mapDelete id (g.atoms.map (fun p => (p.1, p.2.removeConnection id))) := by
  unfold RelationalGraph.removeAtom
  cases h : lookupKey id g.atoms
  · rfl
  · dsimp only []
    split <;> rfl

/-- Provenance through one `removeAtom`. -/
theorem removeAtom_mem {g : RelationalGraph} {id : String} {now : ℤ}
    {p : String × SenseAtom} (hp : p ∈ (g.removeAtom id now).2.atoms) :
    ∃ q ∈ g.atoms, EntryCarries q p := by
  rw [removeAtom_atoms] at hp
  cases h : lookupKey id g.atoms with
  | none =>
    rw [h] at hp
    exact ⟨p, hp, entryCarries_refl p⟩
  | some a0 =>
    rw [h] at hp
    have hp1 := List.mem_of_mem_filter hp
    obtain ⟨q, hq, hpq⟩ := List.mem_map.mp hp1
    exact ⟨q, hq, hpq ▸ entryCarries_removeConnection q id⟩

/-- Provenance through a fold of graph-transforming steps. -/
theorem foldl_mem {α : Type} (step : RelationalGraph → α → RelationalGraph)
    (hstep : ∀ h x p, p ∈ (step h x).atoms → ∃ q ∈ h.atoms, EntryCarries q p) :
    ∀ (l : List α) (g : RelationalGraph) (p : String × SenseAtom),
      p ∈ (l.foldl step g).atoms → ∃ q ∈ g.atoms, EntryCarries q p := by
  intro l
  induction l with
  | nil => intro g p hp; exact ⟨p, hp, entryCarries_refl p⟩
  | cons x t ih =>
    intro g p hp
    obtain ⟨r, hr, hrp⟩ := ih (step g x) p hp
    obtain ⟨q, hq, hqr⟩ := hstep g x r hr
    exact ⟨q, hq, entryCarries_trans hqr hrp⟩

/-- Provenance through `optimize`. -/
theorem optimize_mem {g : RelationalGraph} {now : ℤ} {p : String × SenseAtom}
    (hp : p ∈ (g.optimize now).atoms) : ∃ q ∈ g.atoms, EntryCarries q p := by
  unfold RelationalGraph.optimize at hp
  rw [updateStatistics_atoms] at hp
  have hstep : ∀ (h : RelationalGraph) (x : String) (r : String × SenseAtom),
      r ∈ ((h.removeAtom x now).2).atoms → ∃ q ∈ h.atoms, EntryCarries q r :=
    fun h x r hr => removeAtom_mem hr
  obtain ⟨r, hr, hrp⟩ :=
    foldl_mem (fun h id => (h.removeAtom id now).2) hstep _ _ p hp
  obtain ⟨q, hq, hqr⟩ := List.mem_map.mp hr
  exact ⟨q, hq, entryCarries_trans (hqr ▸ entryCarries_pruneAtom q) hrp⟩

/-- The graph component of the counting removal fold of `applyDecay` equals
the plain removal fold. -/
theorem removalFold_fst (now : ℤ) :
    ∀ (l : List String) (g : RelationalGraph) (n : ℕ),
      (l.foldl (fun (s : RelationalGraph × ℕ) id =>
        let r := s.1.removeAtom id now
        (r.2, if r.1 then s.2 + 1 else s.2)) (g, n)).1 =
      l.foldl (fun h id => (h.removeAtom id now).2) g := by
  intro l
  induction l with
  | nil => intro g n; rfl
  | cons x t ih => intro g n; exact ih _ _

/-- Provenance through one consolidation step of `applyDecay`. -/
theorem consolidationStep_mem (now : ℤ) (h : RelationalGraph) (id : String)
    (p : String × SenseAtom)
    (hp : p ∈ (match lookupKey id h.atoms with
      | some _ => { h with atoms := modifyValue id (fun a => consolidateAtom a now) h.atoms }
      | none => h).atoms) :
    ∃ q ∈ h.atoms, EntryCarries q p := by
  cases hl : lookupKey id h.atoms with
  | none => rw [hl] at hp; exact ⟨p, hp, entryCarries_refl p⟩
  | some a0 =>
    rw [hl] at hp
    dsimp only [] at hp
    obtain ⟨q, hq, hpq⟩ := mem_modifyValue hp
    refine ⟨q, hq, ?_⟩
    by_cases hqid : q.1 = id
    · rw [if_pos hqid] at hpq
      exact hpq ▸ entryCarries_consolidate q now
    · rw [if_neg hqid] at hpq
      exact hpq ▸ entryCarries_refl q

theorem jsMax_nonneg (x : ℚ) : 0 ≤ jsMax x 0 := by
  unfold jsMax
  split
  · exact le_refl 0
  · exact le_of_not_lt (by assumption)

theorem processAtomDecay_weight_nonneg (a : SenseAtom) (now : ℤ) :
    0 ≤ (processAtomDecay a now).1.senseWeight :=
  jsMax_nonneg _

theorem processAtomDecay_consolidationTime (a : SenseAtom) (now : ℤ) :
    (processAtomDecay a now).1.consolidationTime = a.consolidationTime := rfl

theorem ite_optimize_mem {c : Prop} [Decidable c] {g' : RelationalGraph} {now : ℤ}
    {p : String × SenseAtom}
    (hp : p ∈ (if c then g'.optimize now else g').atoms) :
    ∃ q ∈ g'.atoms, EntryCarries q p := by
  split at hp
  · exact optimize_mem hp
  · exact ⟨p, hp, entryCarries_refl p⟩

/-- Every atom of the graph after a Decay Pass descends (same key, same
weight, consolidation timestamp never cleared) from the per-atom decay of
an atom of the input graph. -/
theorem applyDecay_provenance (g : RelationalGraph) (now : ℤ) (p : String × SenseAtom)
    (hp : p ∈ (applyDecay g now).atoms) :
    ∃ q ∈ g.atoms, EntryCarries (q.1, (processAtomDecay q.2 now).1) p := by
  unfold applyDecay at hp
  obtain ⟨q3, hq3, hc3⟩ := ite_optimize_mem hp
  obtain ⟨q2, hq2, hc2⟩ :=
    foldl_mem _ (fun h x r hr => consolidationStep_mem now h x r hr) _ _ q3 hq3
  rw [removalFold_fst] at hq2
  obtain ⟨q1, hq1, hc1⟩ :=
    foldl_mem _ (fun h x r hr => removeAtom_mem hr) _ _ q2 hq2
  dsimp only [] at hq1
  rw [List.map_map] at hq1
  obtain ⟨q, hq, hq1eq⟩ := List.mem_map.mp hq1
  refine ⟨q, hq, ?_⟩
  have hstart : EntryCarries (q.1, (processAtomDecay q.2 now).1) q1 := by
    rw [← hq1eq]; exact entryCarries_refl _
  exact entryCarries_trans (entryCarries_trans (entryCarries_trans hstart hc1) hc2) hc3

/-! ## C1 — weights never negative after a Decay Pass -/

/-- C1: after any single application of the Decay Pass, every node of the
graph has `senseWeight ≥ 0`: the per-atom subtraction of
`weight × effective_rate` is clamped at a zero floor. -/
theorem decayPass_weights_nonneg (g : RelationalGraph) (now : ℤ)
    (p : String × SenseAtom) (hp : p ∈ (applyDecay g now).atoms) :
    0 ≤ p.2.senseWeight := by
  obtain ⟨q, _, hc⟩ := applyDecay_provenance g now p hp
  rw [hc.2.1]
  exact processAtomDecay_weight_nonneg q.2 now

theorem decayPass_weights_nonneg_witness :
    0 ≤ ({ atomC7 with senseWeight := 9/10 } : SenseAtom).senseWeight :=
  decayPass_weights_nonneg graphC7 2678400000 ("n", { atomC7 with senseWeight := 9/10 })
    (by norm_num [applyDecay, processAtomDecay, applyElementBasedDecay, applyAdaptiveDecay,
      applyEmotionalProtection, applyTemporalBonus, applyConnectionProtection,
      BASE_DECAY_RATE, MIN_SENSE_WEIGHT, CONSOLIDATION_THRESHOLD, jsMax, atomC7, graphC7,
      isProtectedFromRemoval, SenseAtom.shouldConsolidate, modifyValue, lookupKey])

/-! ## C6 — consolidation -/

/-- An already-promoted node (timestamp `5`) that still meets the
promotion criteria: six activations, weight `1`, recently accessed. -/
def atomC6 : SenseAtom :=
  { id := "c", label := "c", createdAt := 0, senseWeight := 1, baseSenseWeight := 1,
    decayRate := 5/100, detectedPierwiastki := [], primaryPierwiastek := none,
    lastAccessTime := 0, consolidationTime := some 5, totalActivations := 6,
    amygdalaActivationLevel := none, connections := [], clusters := [], tags := [] }

def graphC6 : RelationalGraph :=
  { atoms := [("c", atomC6)], clusters := [], statistics := ⟨1, 0, 1, 0, 0⟩ }

/-- `atomC6` after the Decay Pass at time `1000`: effective rate
`0.05 × 0.5 × 0.9 × 0.3 = 0.00675`, then a fresh promotion that halves the
stored decay coefficient and re-stamps the consolidation time. -/
def atomC6res : SenseAtom :=
  { atomC6 with
      senseWeight := 3973/4000,
      baseSenseWeight := 3973/4000,
      decayRate := 1/40,
      consolidationTime := some 1000 }

/-- Counterexample to C6 as stated: the promotion timestamp is not set
once — a Decay Pass over a node that is already promoted (timestamp `5`)
and still meets the promotion criteria overwrites the timestamp with the
current time (`1000`). -/
theorem consolidationTime_restamped_cx :
    ((applyDecay graphC6 1000).getAtom "c").map (fun a => a.consolidationTime)
      = some (some 1000) ∧
    (graphC6.getAtom "c").map (fun a => a.consolidationTime) = some (some 5) := by
  constructor
  · norm_num [applyDecay, processAtomDecay, applyElementBasedDecay, applyAdaptiveDecay,
      applyEmotionalProtection, applyTemporalBonus, applyConnectionProtection,
      BASE_DECAY_RATE, MIN_SENSE_WEIGHT, CONSOLIDATION_THRESHOLD, jsMax, atomC6, graphC6,
      isProtectedFromRemoval, SenseAtom.shouldConsolidate, modifyValue, lookupKey,
      consolidateAtom, RelationalGraph.getAtom]
  · rfl

/-- C6 (amended): whenever the Decay Pass promotes a node, the promotion
sets the decay coefficient to exactly half its value immediately before and
stamps the consolidation time with the current time — on every promotion,
not only the first, so a node still meeting the criteria in a later pass is
re-stamped — and no operation of the Decay Pass ever clears a set
consolidation timestamp, so a promoted node never reverts to unpromoted. -/
theorem consolidation_halves_and_never_clears :
    (∀ (a : SenseAtom) (now : ℤ),
        (consolidateAtom a now).decayRate = a.decayRate / 2 ∧
        (consolidateAtom a now).consolidationTime = some now) ∧
    ∀ (g : RelationalGraph) (now : ℤ) (p : String × SenseAtom),
      p ∈ (applyDecay g now).atoms →
      ∃ q ∈ g.atoms, q.1 = p.1 ∧
        (q.2.consolidationTime.isSome → p.2.consolidationTime.isSome) := by
  constructor
  · intro a now
    constructor
    · show a.decayRate * (5/10) = a.decayRate / 2
      ring
    · rfl
  · intro g now p hp
    obtain ⟨q, hq, hc⟩ := applyDecay_provenance g now p hp
    refine ⟨q, hq, hc.1, fun hs => hc.2.2 ?_⟩
    have hct : (processAtomDecay q.2 now).1.consolidationTime = q.2.consolidationTime :=
      processAtomDecay_consolidationTime q.2 now
    simpa [hct] using hs

theorem consolidation_halves_and_never_clears_witness :
    ((consolidateAtom atomC6 77).decayRate = atomC6.decayRate / 2 ∧
      (consolidateAtom atomC6 77).consolidationTime = some 77) ∧
    ∃ q ∈ graphC6.atoms, q.1 = "c" ∧
      (q.2.consolidationTime.isSome → atomC6res.consolidationTime.isSome) :=
  ⟨consolidation_halves_and_never_clears.1 atomC6 77,
   consolidation_halves_and_never_clears.2 graphC6 1000 ("c", atomC6res)
    (by norm_num [applyDecay, processAtomDecay, applyElementBasedDecay, applyAdaptiveDecay,
      applyEmotionalProtection, applyTemporalBonus, applyConnectionProtection,
      BASE_DECAY_RATE, MIN_SENSE_WEIGHT, CONSOLIDATION_THRESHOLD, jsMax, atomC6, graphC6,
      atomC6res, isProtectedFromRemoval, SenseAtom.shouldConsolidate, modifyValue,
      lookupKey, consolidateAtom])⟩

/-! ## Round-trip machinery (C4, C10) -/

theorem lookupKey_append (k : String) :
    ∀ m1 m2 : List (String × β), lookupKey k (m1 ++ m2) =
      match lookupKey k m1 with
      | some v => some v
      | none => lookupKey k m2
  | [], m2 => rfl
  | (k', v) :: t, m2 => by
    by_cases h : k' = k <;> simp [lookupKey, h, lookupKey_append k t m2]

theorem mapSet_absent (k : String) (v : β) :
    ∀ m : List (String × β), lookupKey k m = none → mapSet k v m = m ++ [(k, v)]
  | [], _ => rfl
  | (k', v') :: t, h => by
    by_cases hk : k' = k
    · rw [lookupKey, if_pos hk] at h
      exact absurd h (by simp)
    · rw [lookupKey, if_neg hk] at h
      rw [mapSet, if_neg hk, mapSet_absent k v t h]
      rfl

theorem lookupKey_of_mem_nodup {m : List (String × β)} {k : String} {v : β}
    (hnod : (m.map Prod.fst).Nodup) (h : (k, v) ∈ m) : lookupKey k m = some v := by
  induction m with
  | nil => cases h
  | cons p t ih =>
    rcases List.mem_cons.mp h with h1 | h1
    · rw [← h1]
      simp [lookupKey]
    · obtain ⟨k', v'⟩ := p
      have hk : k' ≠ k := by
        intro hh
        have : k ∈ t.map Prod.fst := List.mem_map.mpr ⟨(k, v), h1, rfl⟩
        rw [List.map_cons] at hnod
        exact (List.nodup_cons.mp hnod).1 (hh ▸ this)
      rw [lookupKey, if_neg hk]
      exact ih (List.nodup_cons.mp (List.map_cons Prod.fst _ t ▸ hnod)).2 h1

/-- Fields that the cluster re-creation phase of `fromJSON` never touches. -/
def SameCore (a b : SenseAtom) : Prop :=
  b.senseWeight = a.senseWeight ∧ b.connections = a.connections ∧
  b.decayRate = a.decayRate ∧ b.consolidationTime = a.consolidationTime ∧
  b.createdAt = a.createdAt

theorem sameCore_refl (a : SenseAtom) : SameCore a a := ⟨rfl, rfl, rfl, rfl, rfl⟩

theorem sameCore_trans {a b c : SenseAtom} (h1 : SameCore a b) (h2 : SameCore b c) :
    SameCore a c :=
  ⟨h2.1.trans h1.1, h2.2.1.trans h1.2.1, h2.2.2.1.trans h1.2.2.1,
   h2.2.2.2.1.trans h1.2.2.2.1, h2.2.2.2.2.trans h1.2.2.2.2⟩

def OptCore : Option SenseAtom → Option SenseAtom → Prop
  | none, none => True
  | some a, some b => SameCore a b
  | _, _ => False

theorem optCore_refl : ∀ o : Option SenseAtom, OptCore o o
  | none => trivial
  | some a => sameCore_refl a

theorem optCore_trans {o1 o2 o3 : Option SenseAtom}
    (h1 : OptCore o1 o2) (h2 : OptCore o2 o3) : OptCore o1 o3 := by
  cases o1 <;> cases o2 <;> cases o3 <;>
    first
    | trivial
    | exact h1.elim
    | exact h2.elim
    | exact sameCore_trans h1 h2

/-- A graph transformation that keeps the atom count, and the core fields
of the atom stored under every key. -/
def CorePreserving (f : RelationalGraph → RelationalGraph) : Prop :=
  ∀ g : RelationalGraph, (f g).atoms.length = g.atoms.length ∧
    ∀ k, OptCore (lookupKey k g.atoms) (lookupKey k (f g).atoms)

theorem corePreserving_comp {f1 f2 : RelationalGraph → RelationalGraph}
    (h1 : CorePreserving f1) (h2 : CorePreserving f2) :
    CorePreserving (fun g => f2 (f1 g)) := by
  intro g
  exact ⟨((h2 (f1 g)).1).trans ((h1 g).1),
    fun k => optCore_trans ((h1 g).2 k) ((h2 (f1 g)).2 k)⟩

theorem corePreserving_foldl {α : Type} (step : RelationalGraph → α → RelationalGraph)
    (hstep : ∀ x, CorePreserving (fun g => step g x)) :
    ∀ l : List α, CorePreserving (fun g => l.foldl step g)
  | [] => fun g => ⟨rfl, fun k => optCore_refl _⟩
  | x :: t => by
    have := corePreserving_comp (hstep x) (corePreserving_foldl step hstep t)
    intro g
    exact this g

/-- One member-update step of `createCluster` is core-preserving. -/
theorem clusterMemberStep_core (name : String) (id : String) :
    CorePreserving (fun h =>
      match lookupKey id h.atoms with
      | some _ =>
        { h with atoms := modifyValue id (fun a => { a with clusters := a.clusters ++ [name] }) h.atoms }
      | none => h) := by
  intro g
  dsimp only []
  cases hl : lookupKey id g.atoms with
  | none => exact ⟨rfl, fun k => optCore_refl _⟩
  | some a0 =>
    dsimp only []
    refine ⟨List.length_map _ _, fun k => ?_⟩
    rw [lookupKey_modifyValue]
    by_cases hk : k = id
    · rw [if_pos hk]
      cases lookupKey k g.atoms with
      | none => trivial
      | some a => exact ⟨rfl, rfl, rfl, rfl, rfl⟩
    · rw [if_neg hk]
      exact optCore_refl _

theorem createCluster_core (name : String) (ids : List String) :
    CorePreserving (fun g => g.createCluster name ids) := by
  intro g
  unfold RelationalGraph.createCluster
  have hf := corePreserving_foldl
    (fun h id =>
      match lookupKey id h.atoms with
      | some _ =>
        { h with atoms := modifyValue id (fun a => { a with clusters := a.clusters ++ [name] }) h.atoms }
      | none => h)
    (fun id => clusterMemberStep_core name id) ids
  exact hf { g with clusters := mapSet name (dedupKeepFirst ids) g.clusters }

theorem clusterFold_core (cs : List (String × List String)) :
    CorePreserving (fun g => cs.foldl (fun h c => h.createCluster c.1 c.2) g) :=
  corePreserving_foldl _ (fun c => createCluster_core c.1 c.2) cs

/-- Rebuilding the exported atoms: under distinct ids stored under their own
keys, the import fold reproduces the key list, storing the re-imported atom
under each original key. -/
theorem fromJSON_atomFold (now : ℤ) :
    ∀ (l : List (String × SenseAtom)) (acc : RelationalGraph),
      (∀ p ∈ l, p.2.id = p.1) → ((l.map Prod.fst).Nodup) →
      (∀ p ∈ l, lookupKey p.1 acc.atoms = none) →
      ((l.map (fun p => p.2.toJSON)).foldl
          (fun h d => h.addAtom (atomFromJSON d now) now) acc).atoms
        = acc.atoms ++ l.map (fun p => (p.1, atomFromJSON p.2.toJSON now)) := by
  intro l
  induction l with
  | nil => intro acc _ _ _; simp
  | cons p t ih =>
    intro acc hid hnod hacc
    obtain ⟨k, a⟩ := p
    simp only [List.map_cons, List.foldl_cons]
    have hida : (atomFromJSON a.toJSON now).id = k := hid (k, a) (List.mem_cons_self _ _)
    have hstep : (acc.addAtom (atomFromJSON a.toJSON now) now).atoms
        = acc.atoms ++ [(k, atomFromJSON a.toJSON now)] := by
      unfold RelationalGraph.addAtom
      rw [updateStatistics_atoms, hida,
        mapSet_absent _ _ _ (hacc (k, a) (List.mem_cons_self _ _))]
    have hknot : k ∉ t.map Prod.fst := by
      rw [List.map_cons] at hnod
      exact (List.nodup_cons.mp hnod).1
    have hacc' : ∀ q ∈ t, lookupKey q.1 (acc.addAtom (atomFromJSON a.toJSON now) now).atoms
        = none := by
      intro q hq
      rw [hstep, lookupKey_append, hacc q (List.mem_cons_of_mem _ hq)]
      have hknq : k ≠ q.1 := by
        intro hh
        exact hknot (hh ▸ List.mem_map.mpr ⟨q, hq, rfl⟩)
      simp [lookupKey, hknq]
    rw [ih (acc.addAtom (atomFromJSON a.toJSON now) now)
        (fun q hq => hid q (List.mem_cons_of_mem _ hq))
        ((List.nodup_cons.mp (List.map_cons Prod.fst _ t ▸ hnod)).2) hacc', hstep]
    simp

/-- Shared skeleton of the C4/C10 round-trip results: after
`fromJSON(toJSON(g))` the node count is preserved and, for every entry of
the original graph, the entry stored under the same key keeps the weight
and adjacency but carries the constructor's decay rate, no consolidation
timestamp, and the import-time creation stamp. -/
theorem roundtrip_lookup (g : RelationalGraph) (now : ℤ) (hwf : g.WF) :
    (RelationalGraph.fromJSON g.toJSON now).atoms.length = g.atoms.length ∧
    ∀ p ∈ g.atoms, ∃ a',
      lookupKey p.1 (RelationalGraph.fromJSON g.toJSON now).atoms = some a' ∧
      a'.senseWeight = p.2.senseWeight ∧ a'.connections = p.2.connections ∧
      a'.decayRate = 5/100 ∧ a'.consolidationTime = none ∧ a'.createdAt = now := by
  obtain ⟨hnod, hid⟩ := hwf
  have hfj : RelationalGraph.fromJSON g.toJSON now =
      (g.toJSON.clusters).foldl (fun h c => h.createCluster c.1 c.2)
        ((g.toJSON.atoms).foldl (fun h d => h.addAtom (atomFromJSON d now) now)
          (RelationalGraph.empty now)) := rfl
  have hatoms1 : ((g.toJSON.atoms).foldl (fun h d => h.addAtom (atomFromJSON d now) now)
      (RelationalGraph.empty now)).atoms
      = g.atoms.map (fun p => (p.1, atomFromJSON p.2.toJSON now)) := by
    have h := fromJSON_atomFold now g.atoms (RelationalGraph.empty now)
      (fun p hp => hid p hp) hnod (fun p _ => rfl)
    simpa using h
  have hc := clusterFold_core (g.toJSON.clusters)
    ((g.toJSON.atoms).foldl (fun h d => h.addAtom (atomFromJSON d now) now)
      (RelationalGraph.empty now))
  constructor
  · rw [hfj, hc.1, hatoms1, List.length_map]
  · intro p hp
    have hlg : lookupKey p.1 g.atoms = some p.2 := by
      obtain ⟨k, a⟩ := p
      exact lookupKey_of_mem_nodup hnod hp
    have hl1 : lookupKey p.1 ((g.toJSON.atoms).foldl
        (fun h d => h.addAtom (atomFromJSON d now) now)
        (RelationalGraph.empty now)).atoms = some (atomFromJSON p.2.toJSON now) := by
      rw [hatoms1]
      have h2 := lookupKey_valueMap (fun a => atomFromJSON a.toJSON now) p.1 g.atoms
      rw [hlg] at h2
      exact h2
    have hoc := hc.2 p.1
    rw [hl1] at hoc
    rw [hfj]
    cases hfinal : lookupKey p.1
        ((g.toJSON.clusters).foldl (fun h c => h.createCluster c.1 c.2)
          ((g.toJSON.atoms).foldl (fun h d => h.addAtom (atomFromJSON d now) now)
            (RelationalGraph.empty now))).atoms with
    | none => rw [hfinal] at hoc; exact hoc.elim
    | some a' =>
      rw [hfinal] at hoc
      exact ⟨a', rfl, hoc.1, hoc.2.1, hoc.2.2.1, hoc.2.2.2.1, hoc.2.2.2.2⟩

/-! ## C4 — round trip preserves count, weights, adjacency -/

/-- C4: exporting with `toJSON` and re-importing with `fromJSON` yields a
graph with the same node count and, for every identity of the original
graph, the same weight and the same adjacency entries (strengths and kinds
included, since the whole entry list is preserved). -/
theorem toJSON_fromJSON_roundtrip (g : RelationalGraph) (now : ℤ) (hwf : g.WF) :
    (RelationalGraph.fromJSON g.toJSON now).atoms.length = g.atoms.length ∧
    ∀ p ∈ g.atoms, ∃ a',
      lookupKey p.1 (RelationalGraph.fromJSON g.toJSON now).atoms = some a' ∧
      a'.senseWeight = p.2.senseWeight ∧ a'.connections = p.2.connections := by
  obtain ⟨hlen, hall⟩ := roundtrip_lookup g now hwf
  exact ⟨hlen, fun p hp => by
    obtain ⟨a', h1, h2, h3, _⟩ := hall p hp
    exact ⟨a', h1, h2, h3⟩⟩

theorem toJSON_fromJSON_roundtrip_witness :
    (RelationalGraph.fromJSON wGraphC3.toJSON 42).atoms.length = wGraphC3.atoms.length ∧
    ∃ a', lookupKey "b" (RelationalGraph.fromJSON wGraphC3.toJSON 42).atoms = some a' ∧
      a'.senseWeight = wAtomB.senseWeight ∧ a'.connections = wAtomB.connections :=
  ⟨(toJSON_fromJSON_roundtrip wGraphC3 42 (by decide)).1,
   (toJSON_fromJSON_roundtrip wGraphC3 42 (by decide)).2 ("b", wAtomB)
     (by simp [wGraphC3])⟩

/-! ## C10 — round trip resets decay coefficient, promotion, creation time -/

/-- C10: the export omits `decayRate`, `consolidationTime` and `createdAt`,
so every re-imported node carries the constructor default decay coefficient
`0.05`, no consolidation timestamp (unpromoted), and the import-time
creation stamp, whatever the exported node's state was. -/
theorem roundtrip_resets_decay_fields (g : RelationalGraph) (now : ℤ) (hwf : g.WF) :
    ∀ p ∈ g.atoms, ∃ a',
      lookupKey p.1 (RelationalGraph.fromJSON g.toJSON now).atoms = some a' ∧
      a'.decayRate = 5/100 ∧ a'.consolidationTime = none ∧ a'.createdAt = now := by
  obtain ⟨_, hall⟩ := roundtrip_lookup g now hwf
  intro p hp
  obtain ⟨a', h1, _, _, h4, h5, h6⟩ := hall p hp
  exact ⟨a', h1, h4, h5, h6⟩

/-- A promoted, slow-decaying, aged atom whose persistence fields are all
dropped by the round trip. -/
def atomC10 : SenseAtom :=
  { id := "x", label := "x", createdAt := 111, senseWeight := 2, baseSenseWeight := 3,
    decayRate := 1/50, detectedPierwiastki := [], primaryPierwiastek := none,
    lastAccessTime := 4, consolidationTime := some 99, totalActivations := 7,
    amygdalaActivationLevel := none, connections := [], clusters := [], tags := [] }

def graphC10 : RelationalGraph :=
  { atoms := [("x", atomC10)], clusters := [], statistics := ⟨1, 0, 2, 0, 0⟩ }

theorem roundtrip_resets_decay_fields_witness :
    ∃ a', lookupKey "x" (RelationalGraph.fromJSON graphC10.toJSON 1234).atoms = some a' ∧
      a'.decayRate = 5/100 ∧ a'.consolidationTime = none ∧ a'.createdAt = 1234 :=
  roundtrip_resets_decay_fields graphC10 1234 (by decide) ("x", atomC10)
    (by simp [graphC10])

/-! ## C5 machinery — optimize idempotence -/

theorem lookupKey_none_mem {m : List (String × β)} {k : String}
    (h : lookupKey k m = none) : ∀ p ∈ m, p.1 ≠ k := by
  induction m with
  | nil => intro p hp; cases hp
  | cons q t ih =>
    obtain ⟨k', v⟩ := q
    intro p hp
    by_cases hk : k' = k
    · rw [lookupKey, if_pos hk] at h
      cases h
    · rw [lookupKey, if_neg hk] at h
      rcases List.mem_cons.mp hp with h1 | h1
      · rw [h1]; exact hk
      · exact ih h p h1

/-- Removing an atom nobody references: the cascade is a no-op, so the atom
list just loses the entries keyed by the removed id. -/
theorem removeAtom_noRef (h : RelationalGraph) (x : String) (now : ℤ)
    (href : ∀ p ∈ h.atoms, ∀ c, (x, c) ∉ p.2.connections) :
    ((h.removeAtom x now).2).atoms = h.atoms.filter (fun p => p.1 ≠ x) := by
  have hmapid : h.atoms.map (fun p => (p.1, p.2.removeConnection x)) = h.atoms := by
    have hpt : ∀ p ∈ h.atoms, (p.1, p.2.removeConnection x) = p := by
      intro p hp
      have hconn : p.2.connections.filter (fun e => e.1 ≠ x) = p.2.connections :=
        List.filter_eq_self.mpr (fun e he => by
          have : e.1 ≠ x := by
            intro hh
            exact href p hp e.2 (by rw [← hh]; exact he)
          simpa using this)
      show (p.1, { p.2 with connections := mapDelete x p.2.connections }) = p
      rw [mapDelete, hconn]
    rw [List.map_congr_left hpt]
    simp
  rw [removeAtom_atoms]
  cases hl : lookupKey x h.atoms with
  | none =>
    exact (List.filter_eq_self.mpr (fun p hp => by
      simpa using lookupKey_none_mem hl p hp)).symm
  | some a0 =>
    rw [mapDelete, hmapid]

/-- Folding no-reference removals filters the removed keys out and leaves
every surviving entry untouched. -/
theorem removeFold_noRef (now : ℤ) :
    ∀ (xs : List String) (h : RelationalGraph),
      (∀ x ∈ xs, ∀ p ∈ h.atoms, ∀ c, (x, c) ∉ p.2.connections) →
      (xs.foldl (fun h id => (h.removeAtom id now).2) h).atoms
        = h.atoms.filter (fun p => decide (p.1 ∉ xs)) := by
  intro xs
  induction xs with
  | nil =>
    intro h _
    simp
  | cons x t ih =>
    intro h href
    rw [List.foldl_cons]
    have hstep : ((h.removeAtom x now).2).atoms = h.atoms.filter (fun p => p.1 ≠ x) :=
      removeAtom_noRef h x now (fun p hp c => href x (List.mem_cons_self _ _) p hp c)
    have href' : ∀ y ∈ t, ∀ p ∈ ((h.removeAtom x now).2).atoms, ∀ c,
        (y, c) ∉ p.2.connections := by
      intro y hy p hp c
      rw [hstep] at hp
      exact href y (List.mem_cons_of_mem _ hy) p (List.mem_of_mem_filter hp) c
    rw [ih ((h.removeAtom x now).2) href', hstep, List.filter_filter]
    refine List.filter_congr (fun p _ => ?_)
    by_cases h1 : p.1 = x <;> by_cases h2 : p.1 ∈ t <;>
      simp [h1, h2, List.mem_cons]

/-- Pruning preserves the adjacency-symmetry invariant (both mirror entries
carry the same strength, so they are kept or dropped together). -/
theorem symm_pruned (g : RelationalGraph) (hsym : g.Symm) :
    ∀ ka a kb b c,
      (ka, a) ∈ g.atoms.map (fun p => (p.1, pruneAtom p.2)) →
      (kb, b) ∈ g.atoms.map (fun p => (p.1, pruneAtom p.2)) →
      (kb, c) ∈ a.connections → (ka, c) ∈ b.connections := by
  intro ka a kb b c hma hmb hc
  obtain ⟨pa, hpa, hpaeq⟩ := List.mem_map.mp hma
  obtain ⟨pb, hpb, hpbeq⟩ := List.mem_map.mp hmb
  obtain ⟨rfl, rfl⟩ : ka = pa.1 ∧ a = pruneAtom pa.2 := by
    constructor <;> [exact (congrArg Prod.fst hpaeq).symm; exact (congrArg Prod.snd hpaeq).symm]
  obtain ⟨rfl, rfl⟩ : kb = pb.1 ∧ b = pruneAtom pb.2 := by
    constructor <;> [exact (congrArg Prod.fst hpbeq).symm; exact (congrArg Prod.snd hpbeq).symm]
  unfold pruneAtom at hc ⊢
  rw [List.mem_filter] at hc
  have hmirror : (pa.1, c) ∈ pb.2.connections := by
    have hpa2 : (pa.1, pa.2) ∈ g.atoms := by
      obtain ⟨k1, a1⟩ := pa; exact hpa
    have hpb2 : (pb.1, pb.2) ∈ g.atoms := by
      obtain ⟨k1, a1⟩ := pb; exact hpb
    exact hsym pa.1 pa.2 pb.1 pb.2 c hpa2 hpb2 hc.1
  exact List.mem_filter.mpr ⟨hmirror, hc.2⟩

theorem pruneAtom_idem (a : SenseAtom) : pruneAtom (pruneAtom a) = pruneAtom a := by
  unfold pruneAtom
  simp only [List.filter_filter]
  congr 1
  exact List.filter_congr (fun x _ => by simp)

/-- Explicit shape of the atom list after one `optimize`: prune every
adjacency list, then drop exactly the atoms collected by the removal
predicate (their removal cascades are no-ops thanks to symmetry). -/
theorem optimize_atoms_eq (g : RelationalGraph) (n : ℤ) (hwf : g.WF) (hsym : g.Symm) :
    (g.optimize n).atoms =
      (g.atoms.map (fun p => (p.1, pruneAtom p.2))).filter
        (fun p => decide (p.1 ∉
          (((g.atoms.map (fun p => (p.1, pruneAtom p.2))).filter
            (fun p => decide (optimizeRemovable p.2))).map (fun p => p.2.id)))) := by
  unfold RelationalGraph.optimize
  rw [updateStatistics_atoms]
  apply removeFold_noRef
  intro x hx p hp c hc
  obtain ⟨q, hq, hqid⟩ := List.mem_map.mp hx
  have hqf := List.mem_filter.mp hq
  have hrem : optimizeRemovable q.2 := of_decide_eq_true hqf.2
  have hconn : q.2.connections = [] := List.length_eq_zero.mp hrem.1
  obtain ⟨p0, hp0, hq0⟩ := List.mem_map.mp hqf.1
  have hqid2 : q.2.id = q.1 := by
    rw [← hq0]
    show (pruneAtom p0.2).id = p0.1
    have h1 := hwf.2 p0 hp0
    simpa [pruneAtom] using h1
  have hqmem : (q.1, q.2) ∈ g.atoms.map (fun p => (p.1, pruneAtom p.2)) := by
    obtain ⟨k1, a1⟩ := q; exact hqf.1
  have hpmem : (p.1, p.2) ∈ g.atoms.map (fun p => (p.1, pruneAtom p.2)) := by
    obtain ⟨k1, a1⟩ := p; exact hp
  have hcq : (q.1, c) ∈ p.2.connections := by
    have hxq : x = q.1 := by rw [← hqid, hqid2]
    rw [← hxq]; exact hc
  have hmirror := symm_pruned g hsym p.1 p.2 q.1 q.2 c hpmem hqmem hcq
  rw [hconn] at hmirror
  exact absurd hmirror (List.not_mem_nil _)

/-- The second `optimize` changes nothing: all weak edges are already gone
and every surviving atom fails the removal predicate. -/
theorem optimize_atoms_stable (g : RelationalGraph) (n1 n2 : ℤ)
    (hwf : g.WF) (hsym : g.Symm) :
    ((g.optimize n1).optimize n2).atoms = (g.optimize n1).atoms := by
  have hG2 := optimize_atoms_eq g n1 hwf hsym
  have hmem : ∀ p ∈ (g.optimize n1).atoms,
      (∃ p0 ∈ g.atoms, p = (p0.1, pruneAtom p0.2)) ∧
      p.1 ∉ (((g.atoms.map (fun p => (p.1, pruneAtom p.2))).filter
        (fun p => decide (optimizeRemovable p.2))).map (fun p => p.2.id)) := by
    intro p hp
    rw [hG2] at hp
    have h1 := List.mem_filter.mp hp
    obtain ⟨p0, hp0, hpeq⟩ := List.mem_map.mp h1.1
    exact ⟨⟨p0, hp0, hpeq.symm⟩, by simpa using of_decide_eq_true h1.2⟩
  have hidem : (g.optimize n1).atoms.map (fun p => (p.1, pruneAtom p.2))
      = (g.optimize n1).atoms := by
    have hpt : ∀ p ∈ (g.optimize n1).atoms, (p.1, pruneAtom p.2) = p := by
      intro p hp
      obtain ⟨⟨p0, hp0, hpeq⟩, _⟩ := hmem p hp
      rw [hpeq]
      show (p0.1, pruneAtom (pruneAtom p0.2)) = (p0.1, pruneAtom p0.2)
      rw [pruneAtom_idem]
    rw [List.map_congr_left hpt]
    simp
  have hpred : (g.optimize n1).atoms.filter (fun p => decide (optimizeRemovable p.2))
      = [] := by
    rw [List.filter_eq_nil_iff]
    intro p hp
    simp only [decide_eq_true_eq]
    intro hrem
    obtain ⟨⟨p0, hp0, hpeq⟩, hnot⟩ := hmem p hp
    apply hnot
    refine List.mem_map.mpr ⟨p, ?_, ?_⟩
    · refine List.mem_filter.mpr ⟨?_, by simpa using hrem⟩
      rw [hpeq]
      exact List.mem_map.mpr ⟨p0, hp0, rfl⟩
    · have hid0 : p.2.id = p.1 := by
        rw [hpeq]
        show (pruneAtom p0.2).id = p0.1
        have h1 := hwf.2 p0 hp0
        simpa [pruneAtom] using h1
      exact hid0
  set G2 := g.optimize n1 with hG2def
  unfold RelationalGraph.optimize
  rw [updateStatistics_atoms]
  dsimp only []
  rw [hidem, hpred]
  simp

/-! ## C5 — optimize is idempotent on node and edge counts -/

/-- C5: on a well-formed graph with symmetric adjacency, running `optimize`
twice in succession with no intervening mutation leaves the same node count
and the same total edge count as running it once — the second run removes
no further connections or atoms. -/
theorem optimize_idempotent (g : RelationalGraph) (n1 n2 : ℤ)
    (hwf : g.WF) (hsym : g.Symm) :
    ((g.optimize n1).optimize n2).size = (g.optimize n1).size ∧
    ((g.optimize n1).optimize n2).totalEdgeEntries = (g.optimize n1).totalEdgeEntries := by
  have h := optimize_atoms_stable g n1 n2 hwf hsym
  unfold RelationalGraph.size RelationalGraph.totalEdgeEntries
  rw [h]
  exact ⟨rfl, rfl⟩

theorem optimize_idempotent_witness :
    ((wGraphAB.optimize 3).optimize 4).size = (wGraphAB.optimize 3).size ∧
    ((wGraphAB.optimize 3).optimize 4).totalEdgeEntries
      = (wGraphAB.optimize 3).totalEdgeEntries :=
  optimize_idempotent wGraphAB 3 4 (by decide) (by
    intro ka a kb b c hma hmb hc
    simp only [wGraphAB, List.mem_cons, List.not_mem_nil, or_false] at hma
    rcases hma with h | h <;>
      (cases h; simp [wAtom, SenseAtom.mk'] at hc))
